import Mathlib

/-!
Verification of the feature/label pipeline of `StockSentimentAnalysis.py`.

The program manipulates pandas Series of floats indexed by trading day.
We embed a Series as a `List (Option ℚ)`: `none` models a NaN cell and
`some q` a numeric cell, with exact rational arithmetic in place of the
floats.  The one place where the source relies on IEEE special values
(the `avg_gain / avg_loss` division inside `rsi` when `avg_loss = 0`,
which produces `inf` or `NaN` and flows through `100 - 100/(1+rs)`) is
embedded by an explicit case split that mirrors the IEEE outcome.
The square root used by `pandas.rolling.std` is irrational in general,
so the Bollinger-band embedding is parametrised by the square-root
routine, of which the proofs assume only nonnegativity of its values.
-/

namespace StockSentiment

/-- A pandas Series of floats: `none` is a NaN cell. -/
abbrev Series := List (Option ℚ)

/-- The value stored at row `i` of a Series, `none` if the row is absent
or holds NaN. -/
def cell (s : Series) (i : ℕ) : Option ℚ := (s[i]?).join

/-- Arithmetic mean of a list of rationals (`pandas.rolling.mean` on a
full window). -/
def listMean (l : List ℚ) : ℚ := l.sum / l.length

/-- Sample variance with `ddof = 1` (`pandas.rolling.std` squares to
this). -/
def listVar (l : List ℚ) : ℚ :=
  (l.map (fun x => (x - listMean l) ^ 2)).sum / (l.length - 1 : ℕ)

/-- The trailing window of `w` cells ending at row `i`: `some` of the
numeric values when the window is full and NaN-free, `none` otherwise
(pandas `rolling(window=w)` with its default `min_periods = w`). -/
def windowAt (s : Series) (w i : ℕ) : Option (List ℚ) :=
  if w ≤ i + 1 ∧ i < s.length then
    if ((s.take (i + 1)).drop (i + 1 - w)).all Option.isSome then
      some (((s.take (i + 1)).drop (i + 1 - w)).filterMap id)
    else none
  else none

/-- Pandas `Series.rolling(window=w).agg f`. -/
def rolling (w : ℕ) (f : List ℚ → ℚ) (s : Series) : Series :=
  (List.range s.length).map (fun i => (windowAt s w i).map f)

/-- Source `sma(data, window)`: the rolling mean of the Close column.
The Close column of downloaded data has no NaN, hence `close.map some`. -/
def sma (close : List ℚ) (window : ℕ) : Series :=
  rolling window listMean (close.map some)

/-- Pandas `diff()` on the Close column: NaN at row 0, else the difference with the
previous close. -/
def diffS (close : List ℚ) : Series :=
  (List.range close.length).map
    (fun i => if i = 0 then none else some (close.getD i 0 - close.getD (i - 1) 0))

/-- Source `delta.where(delta > 0, 0)` at one cell: a NaN delta compares as not
greater than 0, so it is replaced by 0 as well. -/
def gainVal : Option ℚ → ℚ
  | some d => if 0 < d then d else 0
  | none => 0

/-- Source `-delta.where(delta < 0, 0)` at one cell. -/
def lossVal : Option ℚ → ℚ
  | some d => if d < 0 then -d else 0
  | none => 0

/-- The `gain` Series of `rsi`. -/
def gainS (close : List ℚ) : Series := (diffS close).map (fun o => some (gainVal o))

/-- The `loss` Series of `rsi`. -/
def lossS (close : List ℚ) : Series := (diffS close).map (fun o => some (lossVal o))

/-- Source `avg_gain = gain.rolling(window=window).mean()`. -/
def avgGain (close : List ℚ) (window : ℕ) : Series := rolling window listMean (gainS close)

/-- Source `avg_loss = loss.rolling(window=window).mean()`. -/
def avgLoss (close : List ℚ) (window : ℕ) : Series := rolling window listMean (lossS close)

/-- One cell of `100 - (100 / (1 + avg_gain / avg_loss))`.  The branches
mirror IEEE float arithmetic of the source: `0/0 = NaN` makes the cell
NaN; `g/0 = ±inf` for `g ≠ 0` drives `100/(1+rs)` to `∓0`, leaving 100. -/
def rsiCombine (g l : ℚ) : Option ℚ :=
  if l = 0 then (if g = 0 then none else some 100)
  else some (100 - 100 / (1 + g / l))

/-- Elementwise combination of two Series; a NaN on either side is
propagated, as pandas arithmetic does. -/
def zipS (f : ℚ → ℚ → Option ℚ) (a b : Series) : Series :=
  List.zipWith (fun x y => x.bind fun g => y.bind fun l => f g l) a b

/-- Source `rsi(data, window)`. -/
def rsi (close : List ℚ) (window : ℕ) : Series :=
  zipS rsiCombine (avgGain close window) (avgLoss close window)

/-- Rolling sample variance; `pandas.rolling.std` is its square root. -/
def rollingVar (close : List ℚ) (window : ℕ) : Series :=
  rolling window listVar (close.map some)

/-- Source `bollinger_bands(data, window)`; the source inlines the same rolling
mean that the `sma` function computes.  `sqrtFn` stands for the float
square root inside `rolling.std`; proofs assume only `0 ≤ sqrtFn v`. -/
def bollinger_bands (sqrtFn : ℚ → ℚ) (close : List ℚ) (window : ℕ) : Series × Series :=
  (List.zipWith (fun a b => a.bind fun m => b.map fun s => m + 2 * s)
      (sma close window) ((rollingVar close window).map (fun o => o.map sqrtFn)),
   List.zipWith (fun a b => a.bind fun m => b.map fun s => m - 2 * s)
      (sma close window) ((rollingVar close window).map (fun o => o.map sqrtFn)))

/-- Tail of `ewm(span, adjust=False).mean()` after the first element: each step
is `α * x + (1 - α) * prev`. -/
def ewmAux (α : ℚ) : ℚ → List ℚ → List ℚ
  | _, [] => []
  | prev, x :: xs => (α * x + (1 - α) * prev) :: ewmAux α (α * x + (1 - α) * prev) xs

/-- Pandas `Series.ewm(span=span, adjust=False).mean()`: `α = 2/(span+1)`, the
average is seeded with the first value itself. -/
def ewm (span : ℕ) (xs : List ℚ) : List ℚ :=
  match xs with
  | [] => []
  | x :: rest => x :: ewmAux (2 / (span + 1 : ℚ)) x rest

/-- The MACD line `exp12 - exp26` of `macd(data)`. -/
def macdLine (close : List ℚ) : List ℚ :=
  List.zipWith (fun a b => a - b) (ewm 12 close) (ewm 26 close)

/-- Source `macd(data)`: the MACD line and its 9-span EWM
signal line. -/
def macd (close : List ℚ) : List ℚ × List ℚ :=
  (macdLine close, ewm 9 (macdLine close))

/-- The reference recurrence for an exponential moving average seeded
directly from the first value, as the spec describes it. -/
def emaSpec (α : ℚ) (c : List ℚ) : ℕ → ℚ
  | 0 => c.getD 0 0
  | t + 1 => α * c.getD (t + 1) 0 + (1 - α) * emaSpec α c t

/-- Pandas `pct_change()` on the Close column: NaN at row 0, else the relative change
against the previous close. -/
def pctChange (close : List ℚ) : Series :=
  (List.range close.length).map
    (fun i =>
      if i = 0 then none
      else some ((close.getD i 0 - close.getD (i - 1) 0) / close.getD (i - 1) 0))

/-- One row of the DataFrame built by `preprocess_data`, keeping its
positional index (the date index survives `dropna` in pandas).  The
O/H/L/V columns are never read downstream and carry no NaN, so only
Close is modelled. -/
structure DerivedRow where
  idx : ℕ
  close : ℚ
  ret : Option ℚ
  direction : ℤ
  smaV : Option ℚ
  rsiV : Option ℚ
  bbU : Option ℚ
  bbL : Option ℚ
  macdV : Option ℚ
  signalV : Option ℚ
  deriving Repr, DecidableEq

/-- The derived columns of `preprocess_data` at row `i`.
`np.where(Returns > 0, 1, -1)` yields -1 on a NaN return, since
`NaN > 0` is false. -/
def buildRow (sqrtFn : ℚ → ℚ) (close : List ℚ) (i : ℕ) : DerivedRow :=
  { idx := i
    close := close.getD i 0
    ret := cell (pctChange close) i
    direction := match cell (pctChange close) i with
      | some r => if 0 < r then 1 else -1
      | none => -1
    smaV := cell (sma close 14) i
    rsiV := cell (rsi close 14) i
    bbU := cell (bollinger_bands sqrtFn close 14).1 i
    bbL := cell (bollinger_bands sqrtFn close 14).2 i
    macdV := (macd close).1[i]?
    signalV := (macd close).2[i]? }

/-- Pandas `dropna()` keeps a row iff no column of it is NaN; Close,
Direction and the untouched O/H/L/V columns are never NaN. -/
def rowComplete (r : DerivedRow) : Bool :=
  r.ret.isSome && r.smaV.isSome && r.rsiV.isSome && r.bbU.isSome &&
    r.bbL.isSome && r.macdV.isSome && r.signalV.isSome

/-- Source `preprocess_data` after the download: derive all columns from the
Close series, then `dropna`.  The network fetch is external, so the
embedding takes the fetched Close column as its input. -/
def preprocess_data (sqrtFn : ℚ → ℚ) (close : List ℚ) : List DerivedRow :=
  ((List.range close.length).map (buildRow sqrtFn close)).filter rowComplete

/-! ### The feature table, MinMaxScaler and train/test split -/

/-- A row of the numeric feature matrix `X`. -/
abbrev FRow := List ℚ

/-- The feature matrix: a list of equally long rows. -/
abbrev Table := List FRow

/-- Column `j` of a table, read with pandas-style positional access. -/
def colVals (X : Table) (j : ℕ) : List ℚ := X.map (fun r => r.getD j 0)

/-- Minimum of a nonempty list (0 on the empty list, which sklearn
rejects anyway). -/
def listMin : List ℚ → ℚ
  | [] => 0
  | x :: xs => xs.foldl min x

/-- Maximum of a nonempty list. -/
def listMax : List ℚ → ℚ
  | [] => 0
  | x :: xs => xs.foldl max x

/-- Value `MinMaxScaler.data_min_` for column `j` after fitting on `X`. -/
def colMin (X : Table) (j : ℕ) : ℚ := listMin (colVals X j)

/-- Value `MinMaxScaler.data_max_` for column `j` after fitting on `X`. -/
def colMax (X : Table) (j : ℕ) : ℚ := listMax (colVals X j)

/-- Sklearn helper `_handle_zeros_in_scale`: a zero data range is replaced by
1 before dividing, so a constant column scales to 0, not NaN. -/
def rangeAdj (d : ℚ) : ℚ := if d = 0 then 1 else d

/-- Call `scaler.transform` on one row, where the scaler was fitted on `X`:
per column, `(x - data_min) / data_range`. -/
def transformRow (X : Table) (r : FRow) : FRow :=
  (List.range r.length).map
    (fun j => (r.getD j 0 - colMin X j) / rangeAdj (colMax X j - colMin X j))

/-- Call `scaler.fit_transform(X)` of line 92: fit on all of `X`, then scale
every row of `X` with the fitted parameters. -/
def fitTransform (X : Table) : Table := X.map (transformRow X)

/-- The fitted per-column (min, max) pairs of a `MinMaxScaler` over the
first `n` columns. -/
def scalerParams (X : Table) (n : ℕ) : List (ℚ × ℚ) :=
  (List.range n).map (fun j => (colMin X j, colMax X j))

/-- Row selection by index list (the shuffled index sets that
`train_test_split` produces). -/
def selectRows (X : Table) (idxs : List ℕ) : Table := idxs.map (fun i => X.getD i [])

/-- Call `train_test_split(X, y, test_size=0.2, random_state=42)` shuffles
the rows with an opaque seeded permutation and splits off the test set;
the embedding takes the permutation `perm` and the test-set size `k` as
parameters and returns `(train, test)`. -/
def train_test_split (X : Table) (perm : List ℕ) (k : ℕ) : Table × Table :=
  (selectRows X (perm.drop k), selectRows X (perm.take k))

/-- Lines 91-98 of `main`: the scaler is fitted on the full feature
matrix first, and the already scaled matrix is then split. -/
def mainSplit (X : Table) (perm : List ℕ) (k : ℕ) : Table × Table :=
  train_test_split (fitTransform X) perm k

/-- Accessor `.iloc[-1]` on a table: its last row. -/
def lastRow (T : Table) : FRow := T.getD (T.length - 1) []

/-- Inner list of line 120: the fresh sentiment score followed by the
`SMA`, `RSI`, `BB_Upper`, `BB_Lower`, `MACD`, `Signal_Line` columns
(positions 1-6) of the given last row of `X_test`. -/
def assemblePrediction (s : ℚ) (r : FRow) : FRow :=
  [s, r.getD 1 0, r.getD 2 0, r.getD 3 0, r.getD 4 0, r.getD 5 0, r.getD 6 0]

/-- Line 120 in full: assemble the vector from the last `X_test` row and
the fresh sentiment, then `scaler.transform` it, the scaler having been
fitted on the full matrix `X`. -/
def predictorInput (X : Table) (Xtest : Table) (s : ℚ) : FRow :=
  transformRow X (assemblePrediction s (lastRow Xtest))

/-- The predictor input as the spec words it: the most recent RAW
indicator values plus the fresh sentiment, scaled once with the retained
scaler.  Stated only to compare against `predictorInput`. -/
def predictorInputClaim (X : Table) (rawLatest : FRow) (s : ℚ) : FRow :=
  transformRow X (assemblePrediction s rawLatest)

/-- Line 122: up if prediction[0] > 0 else down. -/
def movement (p : ℚ) : String := if 0 < p then ("up") else ("down")

/-! ### Column layout (claim C10) -/

/-- The seven feature columns of the pipeline. -/
inductive FeatureName where
  | sentiment | smaCol | rsiCol | bbUpperCol | bbLowerCol | macdCol | signalCol
  deriving Repr, DecidableEq

/-- The training-time column order selected by `prepare_features`
(line 59). -/
def featureColumns : List FeatureName :=
  [.sentiment, .smaCol, .rsiCol, .bbUpperCol, .bbLowerCol, .macdCol, .signalCol]

/-- The order in which line 120 assembles the single prediction vector,
one component per named column value. -/
def predictionVector (v : FeatureName → ℚ) : List ℚ :=
  [v .sentiment, v .smaCol, v .rsiCol, v .bbUpperCol, v .bbLowerCol,
   v .macdCol, v .signalCol]

/-! ### Name binding structure (claim C2)

The training loop of lines 100-125 sits at module scope.  Python
executes a module top to bottom, so when the loop runs, the module
environment holds exactly the imports, the function and `models`
definitions above it, plus the loop targets; the bindings of lines
128-129 do not exist yet, and `main` has not run. -/

/-- Names bound in the local scope of `main` (parameters and
assignments, lines 71-98). -/
def mainLocalNames : List String :=
  ["stock_ticker", "news_headline", "sentiment_analyzer", "start_date",
   "end_date", "stock_data", "news_data", "merged_data", "X", "scaler",
   "X_scaled", "y", "X_train", "X_test", "y_train", "y_test"]

/-- Names bound at module scope by the time line 112 executes: imports
(lines 1-15), the module-level functions, `models`, and the `for`
targets of line 112. -/
def moduleScopeNames : List String :=
  ["yf", "pd", "np", "SentimentIntensityAnalyzer", "train_test_split",
   "GridSearchCV", "LogisticRegression", "RandomForestClassifier",
   "AdaBoostClassifier", "SVC", "KNeighborsClassifier",
   "DecisionTreeClassifier", "MLPClassifier", "accuracy_score",
   "classification_report", "MinMaxScaler", "XGBClassifier", "datetime",
   "sma", "rsi", "bollinger_bands", "macd", "preprocess_data",
   "prepare_features", "train_and_evaluate_model", "main", "models",
   "model_name", "model", "model_params"]

/-- Python builtins resolved after module scope. -/
def builtinNames : List String := ["print", "input", "len"]

/-- The names line 113 looks up, in evaluation order: the callee, then
its arguments left to right. -/
def line113NameRefs : List String :=
  ["train_and_evaluate_model", "model", "model_params", "X_train",
   "y_train", "X_test", "y_test"]

/-- The seven names the claim lists as referenced by the loop but bound
only inside `main`. -/
def mainOnlyNames : List String :=
  ["X_train", "y_train", "X_test", "y_test", "scaler", "stock_ticker",
   "news_headline"]

/-- Name lookup: the first referenced name missing from the environment
raises `NameError` there; `none` means every lookup succeeds. -/
def lookupFailure (env refs : List String) : Option String :=
  refs.find? (fun n => !(env.contains n))

/-! ### Concrete inputs used by witness theorems -/

/-- A 16-day Close series: fourteen flat days, then a jump. -/
def wClose : List ℚ := [1, 1, 1, 1, 1, 1, 1, 1, 1, 1, 1, 1, 1, 1, 2, 2]

/-- A concrete stand-in for the square root that satisfies the only
property the proofs assume of it, nonnegativity. -/
def wAbs : ℚ → ℚ := fun x => |x|

/-- The surviving row of `preprocess_data wAbs wClose` (index 14). -/
def wRow : DerivedRow :=
  { idx := 14, close := 2, ret := some 1, direction := 1,
    smaV := some (15 / 14), rsiV := some 100, bbU := some (17 / 14),
    bbL := some (13 / 14), macdV := some (28 / 351),
    signalV := some (28 / 1755) }

/-- A two-row, seven-column feature matrix for the predictor witnesses. -/
def wTable : Table := [[0, 0, 0, 0, 0, 0, 0], [1, 10, 20, 30, 40, 50, 60]]

/-! ### Helper lemmas on the Series combinators -/

theorem cell_rolling_eq_some {w : ℕ} {f : List ℚ → ℚ} {s : Series} {i : ℕ} {v : ℚ}
    (h : cell (rolling w f s) i = some v) :
    ∃ l, windowAt s w i = some l ∧ v = f l := by
  unfold cell rolling at h
  rw [List.getElem?_map] at h
  rcases Nat.lt_or_ge i s.length with hi | hi
  · rw [List.getElem?_range hi] at h
    simp only [Option.map_some', Option.join] at h
    rw [Option.some_bind] at h
    rcases Option.map_eq_some'.mp h with ⟨l, hl, hv⟩
    exact ⟨l, hl, hv.symm⟩
  · rw [List.getElem?_eq_none (by simpa using hi)] at h
    simp at h

theorem cell_rolling_of_lt {w : ℕ} {f : List ℚ → ℚ} {s : Series} {i : ℕ}
    (hi : i < s.length) :
    cell (rolling w f s) i = (windowAt s w i).map f := by
  unfold cell rolling
  rw [List.getElem?_map, List.getElem?_range hi]
  simp

theorem cell_rolling_of_ge {w : ℕ} {f : List ℚ → ℚ} {s : Series} {i : ℕ}
    (hi : s.length ≤ i) :
    cell (rolling w f s) i = none := by
  unfold cell rolling
  rw [List.getElem?_map, List.getElem?_eq_none (by simpa using hi)]
  simp

theorem windowAt_of_lt {s : Series} {w i : ℕ} (h : i + 1 < w) :
    windowAt s w i = none := by
  unfold windowAt
  rw [if_neg]
  rintro ⟨h1, -⟩
  omega

theorem windowAt_map_some {c : List ℚ} {w i : ℕ} (h1 : w ≤ i + 1)
    (h2 : i < c.length) :
    windowAt (c.map some) w i = some ((c.take (i + 1)).drop (i + 1 - w)) := by
  unfold windowAt
  have hs : ((c.map some).take (i + 1)).drop (i + 1 - w)
      = ((c.take (i + 1)).drop (i + 1 - w)).map some := by
    rw [← List.map_take, ← List.map_drop]
  rw [if_pos ⟨h1, by simpa using h2⟩, if_pos]
  · rw [hs, List.filterMap_map]
    exact congrArg some (List.filterMap_some ..)
  · rw [hs]
    rw [List.all_eq_true]
    intro x hx
    rcases List.mem_map.mp hx with ⟨a, -, rfl⟩
    rfl

theorem mem_of_mem_windowAt {s : Series} {w i : ℕ} {l : List ℚ} {x : ℚ}
    (h : windowAt s w i = some l) (hx : x ∈ l) : some x ∈ s := by
  unfold windowAt at h
  split at h
  · split at h
    · rcases Option.some.inj h with rfl
      rcases List.mem_filterMap.mp hx with ⟨o, ho, hox⟩
      have : o ∈ s := List.take_subset _ _ (List.drop_subset _ _ ho)
      simpa [show o = some x from hox] using this
    · exact absurd h (by simp)
  · exact absurd h (by simp)

theorem length_gainS (close : List ℚ) : (gainS close).length = close.length := by
  simp [gainS, diffS]

theorem length_lossS (close : List ℚ) : (lossS close).length = close.length := by
  simp [lossS, diffS]

theorem gainS_nonneg {close : List ℚ} {x : ℚ} (h : some x ∈ gainS close) : 0 ≤ x := by
  rcases List.mem_map.mp h with ⟨o, -, ho⟩
  rcases Option.some.inj ho with rfl
  unfold gainVal
  rcases o with - | d
  · exact le_refl 0
  · dsimp only
    split
    · exact le_of_lt (by assumption)
    · exact le_refl 0

theorem lossS_nonneg {close : List ℚ} {x : ℚ} (h : some x ∈ lossS close) : 0 ≤ x := by
  rcases List.mem_map.mp h with ⟨o, -, ho⟩
  rcases Option.some.inj ho with rfl
  unfold lossVal
  rcases o with - | d
  · exact le_refl 0
  · dsimp only
    split
    · linarith [show d < 0 by assumption]
    · exact le_refl 0

theorem listMean_nonneg {l : List ℚ} (h : ∀ x ∈ l, 0 ≤ x) : 0 ≤ listMean l := by
  unfold listMean
  exact div_nonneg (List.sum_nonneg h) (by positivity)

theorem avgGain_nonneg {close : List ℚ} {w i : ℕ} {g : ℚ}
    (h : cell (avgGain close w) i = some g) : 0 ≤ g := by
  rcases cell_rolling_eq_some h with ⟨l, hl, rfl⟩
  exact listMean_nonneg (fun x hx => gainS_nonneg (mem_of_mem_windowAt hl hx))

theorem avgLoss_nonneg {close : List ℚ} {w i : ℕ} {g : ℚ}
    (h : cell (avgLoss close w) i = some g) : 0 ≤ g := by
  rcases cell_rolling_eq_some h with ⟨l, hl, rfl⟩
  exact listMean_nonneg (fun x hx => lossS_nonneg (mem_of_mem_windowAt hl hx))

theorem cell_zipS_eq_some {f : ℚ → ℚ → Option ℚ} {a b : Series} {i : ℕ} {x : ℚ}
    (h : cell (zipS f a b) i = some x) :
    ∃ g l, cell a i = some g ∧ cell b i = some l ∧ f g l = some x := by
  unfold cell zipS at h
  rw [List.getElem?_zipWith] at h
  rcases ha : a[i]? with - | oa
  · rw [ha] at h; simp at h
  · rcases hb : b[i]? with - | ob
    · rw [ha, hb] at h; simp at h
    · rw [ha, hb] at h
      simp only [Option.join, Option.some_bind] at h
      rcases oa with - | g
      · simp at h
      · rcases ob with - | l
        · simp at h
        · exact ⟨g, l, by simp [cell, ha], by simp [cell, hb], by simpa using h⟩

theorem cell_zipS_of_some {f : ℚ → ℚ → Option ℚ} {a b : Series} {i : ℕ} {g l : ℚ}
    (ha : cell a i = some g) (hb : cell b i = some l) :
    cell (zipS f a b) i = f g l := by
  unfold cell at ha hb
  unfold cell zipS
  rw [List.getElem?_zipWith, Option.join_eq_some.mp ha, Option.join_eq_some.mp hb]
  simp

theorem preprocess_row_shape {sqrtFn : ℚ → ℚ} {close : List ℚ} {row : DerivedRow}
    (h : row ∈ preprocess_data sqrtFn close) :
    row = buildRow sqrtFn close row.idx ∧ row.idx < close.length ∧
      rowComplete row = true := by
  unfold preprocess_data at h
  rcases List.mem_filter.mp h with ⟨hm, hc⟩
  rcases List.mem_map.mp hm with ⟨i, hi, rfl⟩
  exact ⟨rfl, by simpa using List.mem_range.mp hi, hc⟩

/-! ### The claims -/

/-- C5: at every row where RSI is defined it lies in `[0, 100]`, and in
the zero-average-loss edge case with positive average gain the embedded
division (mirroring the `inf` of the source) yields exactly 100. -/
theorem rsi_bounds_spec (close : List ℚ) (w i : ℕ) :
    (∀ x, cell (rsi close w) i = some x → 0 ≤ x ∧ x ≤ 100) ∧
    (∀ g, cell (avgLoss close w) i = some 0 → cell (avgGain close w) i = some g →
      0 < g → cell (rsi close w) i = some 100) := by
  constructor
  · intro x hx
    rcases cell_zipS_eq_some hx with ⟨g, l, hg, hl, hc⟩
    have hg0 : 0 ≤ g := avgGain_nonneg hg
    have hl0 : 0 ≤ l := avgLoss_nonneg hl
    unfold rsiCombine at hc
    by_cases hlz : l = 0
    · rw [if_pos hlz] at hc
      by_cases hgz : g = 0
      · rw [if_pos hgz] at hc
        exact absurd hc (by simp)
      · rw [if_neg hgz] at hc
        rcases Option.some.inj hc with rfl
        constructor <;> norm_num
    · rw [if_neg hlz] at hc
      rcases Option.some.inj hc with rfl
      have hlpos : 0 < l := lt_of_le_of_ne hl0 (Ne.symm hlz)
      have hrs : 0 ≤ g / l := div_nonneg hg0 hl0
      have h1 : (0 : ℚ) < 1 + g / l := by linarith
      have h2 : 100 / (1 + g / l) ≤ 100 := div_le_self (by norm_num) (by linarith)
      have h3 : 0 < 100 / (1 + g / l) := div_pos (by norm_num) h1
      constructor <;> linarith
  · intro g hl hg hgpos
    have h := cell_zipS_of_some (f := rsiCombine) hg hl
    unfold rsi
    rw [h]
    unfold rsiCombine
    rw [if_pos rfl, if_neg (ne_of_gt hgpos)]

/-- Witness for C5 on the concrete series `wClose` at row 14, where the
14-bar average loss is 0 and the average gain is 1/14. -/
theorem rsi_bounds_instance :
    cell (rsi wClose 14) 14 = some 100 ∧ ((0 : ℚ) ≤ 100 ∧ (100 : ℚ) ≤ 100) :=
  ⟨(rsi_bounds_spec wClose 14 14).2 (1 / 14) (by with_unfolding_all decide)
      (by with_unfolding_all decide) (by with_unfolding_all decide),
   (rsi_bounds_spec wClose 14 14).1 100 (by with_unfolding_all decide)⟩

/-- C6: with the window 14 used by `preprocess_data`, the SMA cell is
NaN for the first 13 rows, equals the arithmetic mean of the trailing 14
closes afterwards, and every row that survives `dropna` carries a
defined SMA value. -/
theorem sma_window_spec (close : List ℚ) (i : ℕ) :
    (i + 1 < 14 → cell (sma close 14) i = none) ∧
    (13 ≤ i → i < close.length →
      cell (sma close 14) i
        = some (((close.take (i + 1)).drop (i + 1 - 14)).sum / 14)) ∧
    (∀ sqrtFn row, row ∈ preprocess_data sqrtFn close →
      row.smaV = cell (sma close 14) row.idx ∧ row.smaV.isSome = true) := by
  refine ⟨?_, ?_, ?_⟩
  · intro h
    unfold sma
    rcases Nat.lt_or_ge i (close.map some).length with hi | hi
    · rw [cell_rolling_of_lt hi, windowAt_of_lt h]
      rfl
    · exact cell_rolling_of_ge hi
  · intro h13 hlen
    unfold sma
    rw [cell_rolling_of_lt (by simpa using hlen), windowAt_map_some (by omega) hlen]
    simp only [Option.map_some']
    congr 1
    unfold listMean
    have hl : ((close.take (i + 1)).drop (i + 1 - 14)).length = 14 := by
      rw [List.length_drop, List.length_take]
      omega
    rw [hl]
    norm_num
  · intro sqrtFn row h
    rcases preprocess_row_shape h with ⟨hrow, -, hcomp⟩
    constructor
    · exact congrArg DerivedRow.smaV hrow
    · unfold rowComplete at hcomp
      simp only [Bool.and_eq_true] at hcomp
      exact hcomp.1.1.1.1.1.2

/-- Witness for C6: on `wClose` the SMA at row 13 is the mean of the
first fourteen closes. -/
theorem sma_window_instance :
    cell (sma wClose 14) 13
      = some (((wClose.take (13 + 1)).drop (13 + 1 - 14)).sum / 14) :=
  (sma_window_spec wClose 13).2.1 (by norm_num) (by with_unfolding_all decide)

/-- C1: every row surviving `preprocess_data` carries a Direction label
in `{+1, -1}` that is `+1` exactly when the same-day percentage change
of Close recorded on that row is strictly positive, with no shift to a
next-day return. -/
theorem direction_label_spec (sqrtFn : ℚ → ℚ) (close : List ℚ) (row : DerivedRow)
    (h : row ∈ preprocess_data sqrtFn close) :
    (row.direction = 1 ∨ row.direction = -1) ∧
    ∃ r, row.ret = some r ∧ cell (pctChange close) row.idx = some r ∧
      (row.direction = 1 ↔ 0 < r) ∧ (row.direction = -1 ↔ ¬0 < r) := by
  rcases preprocess_row_shape h with ⟨hrow, -, hcomp⟩
  have hret : row.ret = cell (pctChange close) row.idx :=
    congrArg DerivedRow.ret hrow
  have hdir : row.direction
      = (match cell (pctChange close) row.idx with
          | some r => if 0 < r then (1 : ℤ) else -1
          | none => -1) :=
    congrArg DerivedRow.direction hrow
  have hsome : row.ret.isSome = true := by
    unfold rowComplete at hcomp
    simp only [Bool.and_eq_true] at hcomp
    exact hcomp.1.1.1.1.1.1
  rcases hx : row.ret with - | r
  · rw [hx] at hsome
    simp at hsome
  · have hc : cell (pctChange close) row.idx = some r := by rw [← hret, hx]
    have hdir2 : row.direction = if 0 < r then (1 : ℤ) else -1 := by
      rw [hdir, hc]
    by_cases h0 : 0 < r
    · rw [if_pos h0] at hdir2
      refine ⟨Or.inl hdir2, r, rfl, hc, ⟨fun _ => h0, fun _ => hdir2⟩, ?_⟩
      constructor
      · intro hm
        exact absurd (hdir2.symm.trans hm) (by decide)
      · intro hn
        exact absurd h0 hn
    · rw [if_neg h0] at hdir2
      refine ⟨Or.inr hdir2, r, rfl, hc, ?_, ⟨fun _ => h0, fun _ => hdir2⟩⟩
      constructor
      · intro hm
        exact absurd (hdir2.symm.trans hm) (by decide)
      · intro hp
        exact absurd hp h0

set_option maxRecDepth 40000 in
/-- Witness for C1: the explicit surviving row of
`preprocess_data wAbs wClose` with its Direction label `+1`. -/
theorem direction_label_instance :
    wRow ∈ preprocess_data wAbs wClose ∧ (wRow.direction = 1 ∨ wRow.direction = -1) :=
  ⟨by with_unfolding_all decide, (direction_label_spec wAbs wClose wRow (by with_unfolding_all decide)).1⟩

theorem length_ewmAux (α : ℚ) : ∀ (prev : ℚ) (xs : List ℚ),
    (ewmAux α prev xs).length = xs.length := by
  intro prev xs
  induction xs generalizing prev with
  | nil => rfl
  | cons x xs ih => simp [ewmAux, ih]

theorem length_ewm (span : ℕ) (c : List ℚ) : (ewm span c).length = c.length := by
  cases c with
  | nil => rfl
  | cons x rest => simp [ewm, length_ewmAux]

theorem ewmAux_getD_succ (α : ℚ) :
    ∀ (xs : List ℚ) (prev : ℚ) (t : ℕ), t + 1 < xs.length →
      (ewmAux α prev xs).getD (t + 1) 0
        = α * xs.getD (t + 1) 0 + (1 - α) * (ewmAux α prev xs).getD t 0 := by
  intro xs
  induction xs with
  | nil =>
    intro prev t h
    simp at h
  | cons x xs ih =>
    intro prev t h
    cases t with
    | zero =>
      cases xs with
      | nil => simp at h
      | cons z zs => simp [ewmAux]
    | succ s =>
      have hs : s + 1 < xs.length := by simpa using h
      simp only [ewmAux, List.getD_cons_succ]
      exact ih (α * x + (1 - α) * prev) s hs

theorem ewm_getD_zero (span : ℕ) (c : List ℚ) (h : 0 < c.length) :
    (ewm span c).getD 0 0 = c.getD 0 0 := by
  cases c with
  | nil => simp at h
  | cons x rest => rfl

theorem ewm_getD_succ (span : ℕ) (c : List ℚ) (t : ℕ) (h : t + 1 < c.length) :
    (ewm span c).getD (t + 1) 0
      = (2 / (span + 1 : ℚ)) * c.getD (t + 1) 0
        + (1 - 2 / (span + 1 : ℚ)) * (ewm span c).getD t 0 := by
  cases c with
  | nil => simp at h
  | cons x rest =>
    cases t with
    | zero =>
      cases rest with
      | nil => simp at h
      | cons z zs => simp [ewm, ewmAux]
    | succ s =>
      have hs : s + 1 < rest.length := by simpa using h
      simp only [ewm, List.getD_cons_succ]
      exact ewmAux_getD_succ _ rest x s hs

theorem ewm_eq_emaSpec (span : ℕ) (c : List ℚ) (t : ℕ) (h : t < c.length) :
    (ewm span c).getD t 0 = emaSpec (2 / (span + 1 : ℚ)) c t := by
  induction t with
  | zero => exact ewm_getD_zero span c h
  | succ s ih =>
    rw [ewm_getD_succ span c s h, ih (by omega)]
    rfl

theorem getElemQ_eq_getD {l : List ℚ} {t : ℕ} (h : t < l.length) :
    l[t]? = some (l.getD t 0) := by
  have hd : l.getD t 0 = l[t] := by
    rw [List.getD_eq_getElem?_getD, List.getElem?_eq_getElem h]
    rfl
  rw [List.getElem?_eq_getElem h, hd]

/-- C7: every MACD cell is the difference of the 12-span and 26-span
exponential moving averages of Close, both satisfying the
seeded-from-the-first-value recurrence with no bias adjustment, and the
signal cell is the 9-span EWM of the MACD series itself. -/
theorem macd_ema_spec (close : List ℚ) (t : ℕ) (h : t < close.length) :
    (macd close).1[t]? = some (emaSpec (2 / 13) close t - emaSpec (2 / 27) close t) ∧
    (macd close).2[t]? = some (emaSpec (1 / 5) (macdLine close) t) := by
  have l12 : (ewm 12 close).length = close.length := length_ewm 12 close
  have l26 : (ewm 26 close).length = close.length := length_ewm 26 close
  have lm : (macdLine close).length = close.length := by
    unfold macdLine
    rw [List.length_zipWith, l12, l26, Nat.min_self]
  have e12 : (2 / ((12 : ℕ) + 1 : ℚ)) = 2 / 13 := by norm_num
  have e26 : (2 / ((26 : ℕ) + 1 : ℚ)) = 2 / 27 := by norm_num
  have e9 : (2 / ((9 : ℕ) + 1 : ℚ)) = 1 / 5 := by norm_num
  constructor
  · show (macdLine close)[t]? = _
    unfold macdLine
    rw [List.getElem?_zipWith, getElemQ_eq_getD (by omega), getElemQ_eq_getD (by omega)]
    rw [ewm_eq_emaSpec 12 close t h, ewm_eq_emaSpec 26 close t h]
    rw [e12, e26]
  · show (ewm 9 (macdLine close))[t]? = _
    rw [getElemQ_eq_getD (by rw [length_ewm, lm]; exact h)]
    rw [ewm_eq_emaSpec 9 _ t (by rw [lm]; exact h)]
    rw [e9]

/-- Witness for C7 on the two-day series `[1, 2]` at `t = 1`. -/
theorem macd_ema_instance :
    (macd [1, 2]).1[1]? = some (emaSpec (2 / 13) [1, 2] 1 - emaSpec (2 / 27) [1, 2] 1) ∧
    (macd [1, 2]).2[1]? = some (emaSpec (1 / 5) (macdLine [1, 2]) 1) :=
  macd_ema_spec [1, 2] 1 (by simp)

/-- C8: wherever the SMA and the rolling variance are defined, the upper
band is `SMA + 2·std`, the lower band is `SMA − 2·std` over the same
trailing window, and `lower ≤ SMA ≤ upper`. -/
theorem bollinger_band_spec (sqrtFn : ℚ → ℚ) (hs : ∀ v, 0 ≤ sqrtFn v)
    (close : List ℚ) (w i : ℕ) (m v : ℚ)
    (hm : cell (sma close w) i = some m)
    (hv : cell (rollingVar close w) i = some v) :
    cell (bollinger_bands sqrtFn close w).1 i = some (m + 2 * sqrtFn v) ∧
    cell (bollinger_bands sqrtFn close w).2 i = some (m - 2 * sqrtFn v) ∧
    m - 2 * sqrtFn v ≤ m ∧ m ≤ m + 2 * sqrtFn v := by
  have hm2 : (sma close w)[i]? = some (some m) := Option.join_eq_some.mp hm
  have hv2 : (rollingVar close w)[i]? = some (some v) := Option.join_eq_some.mp hv
  have hstd : ((rollingVar close w).map (fun o => o.map sqrtFn))[i]?
      = some (some (sqrtFn v)) := by
    rw [List.getElem?_map, hv2]
    rfl
  refine ⟨?_, ?_, ?_, ?_⟩
  · show cell (List.zipWith _ (sma close w)
        ((rollingVar close w).map (fun o => o.map sqrtFn))) i = _
    unfold cell
    rw [List.getElem?_zipWith, hm2, hstd]
    rfl
  · show cell (List.zipWith _ (sma close w)
        ((rollingVar close w).map (fun o => o.map sqrtFn))) i = _
    unfold cell
    rw [List.getElem?_zipWith, hm2, hstd]
    rfl
  · linarith [hs v]
  · linarith [hs v]

/-- Witness for C8 on `wClose` at row 13, where the trailing window is
constant, so the variance is 0 and both bands coincide with the SMA. -/
theorem bollinger_band_instance :
    cell (bollinger_bands wAbs wClose 14).1 13 = some (1 + 2 * wAbs 0) ∧
    cell (bollinger_bands wAbs wClose 14).2 13 = some (1 - 2 * wAbs 0) ∧
    (1 : ℚ) - 2 * wAbs 0 ≤ 1 ∧ (1 : ℚ) ≤ 1 + 2 * wAbs 0 :=
  bollinger_band_spec wAbs (fun v => abs_nonneg v) wClose 14 13 1 0
    (by with_unfolding_all decide) (by with_unfolding_all decide)

/-- C2: the seven names the training loop references are all local to
`main` and absent from the module scope in which the loop executes, and
evaluating line 113 fails at the first missing lookup, `X_train`, so no
run ever reaches training, evaluation or the per-model report. -/
theorem training_loop_scope_spec :
    (mainOnlyNames.all
        (fun n => mainLocalNames.contains n
          && !((moduleScopeNames ++ builtinNames).contains n))) = true ∧
    lookupFailure (moduleScopeNames ++ builtinNames) line113NameRefs
      = some ("X_train") := by
  constructor
  · decide
  · decide

theorem getD_fitTransform (X : Table) (i : ℕ) :
    (fitTransform X).getD i [] = transformRow X (X.getD i []) := by
  rcases Nat.lt_or_ge i X.length with h | h
  · rw [List.getD_eq_getElem?_getD, List.getD_eq_getElem?_getD]
    unfold fitTransform
    rw [List.getElem?_map, List.getElem?_eq_getElem h]
    rfl
  · rw [List.getD_eq_getElem?_getD, List.getD_eq_getElem?_getD]
    unfold fitTransform
    rw [List.getElem?_eq_none (by simpa using h), List.getElem?_eq_none h]
    rfl

theorem selectRows_fitTransform (X : Table) (idxs : List ℕ) :
    selectRows (fitTransform X) idxs = (selectRows X idxs).map (transformRow X) := by
  unfold selectRows
  rw [List.map_map]
  apply List.map_congr_left
  intro i _
  exact getD_fitTransform X i

/-- C3 (amended): the scaler is fitted once, on the FULL feature matrix
before the split, so both the train and the test rows that
`train_test_split` selects are raw rows transformed with the
full-matrix parameters, and the same parameters scale the
prediction-time observation. -/
theorem scaler_full_fit_spec (X : Table) (perm : List ℕ) (k : ℕ) :
    (mainSplit X perm k).1 = (selectRows X (perm.drop k)).map (transformRow X) ∧
    (mainSplit X perm k).2 = (selectRows X (perm.take k)).map (transformRow X) ∧
    (∀ T s, predictorInput X T s
      = transformRow X (assemblePrediction s (lastRow T))) :=
  ⟨selectRows_fitTransform X _, selectRows_fitTransform X _, fun _ _ => rfl⟩

/-- Counterexample to C3 as stated: on a five-row matrix whose maximum
sits in the test split, the parameters fitted by line 92 differ from the
training-split parameters, and the test row is scaled to 1 instead of
the 10/3 a training-only fit would give, so test rows do influence the
min/max used for scaling. -/
theorem scaler_train_only_refuted :
    scalerParams [[0], [1], [2], [3], [10]] 1
      ≠ scalerParams (selectRows [[0], [1], [2], [3], [10]] (([4, 0, 1, 2, 3]).drop 1)) 1 ∧
    (mainSplit [[0], [1], [2], [3], [10]] [4, 0, 1, 2, 3] 1).2 = [[1]] ∧
    (selectRows [[0], [1], [2], [3], [10]] (([4, 0, 1, 2, 3]).take 1)).map
        (transformRow (selectRows [[0], [1], [2], [3], [10]] (([4, 0, 1, 2, 3]).drop 1)))
      = [[10 / 3]] ∧
    ((1 : ℚ)) ≠ 10 / 3 := by
  refine ⟨?_, ?_, ?_, ?_⟩ <;> with_unfolding_all decide

theorem lastRow_map {g : ℕ → FRow} {idxs : List ℕ} {j : ℕ}
    (hj : idxs.getLast? = some j) : lastRow (idxs.map g) = g j := by
  unfold lastRow
  rw [List.getD_eq_getElem?_getD, List.length_map, List.getElem?_map,
    ← List.getLast?_eq_getElem?, hj]
  rfl

/-- C4 (amended): the prediction vector is assembled from the fresh raw
sentiment together with columns 1-6 of the last row of the
ALREADY-SCALED test split (not raw most-recent indicators), the
full-matrix scaler is then applied to that vector (scaling the indicator
components a second time), and the class prediction maps to up exactly
when positive, down otherwise. -/
theorem predictor_pipeline_spec (X : Table) (perm : List ℕ) (k : ℕ) (s : ℚ) (j : ℕ)
    (hj : (perm.take k).getLast? = some j) :
    predictorInput X (mainSplit X perm k).2 s
      = transformRow X (assemblePrediction s (transformRow X (X.getD j []))) ∧
    (∀ p, (movement p = ("up" : String) ↔ 0 < p) ∧
      (movement p = ("down" : String) ↔ ¬0 < p)) := by
  constructor
  · have h2 : (mainSplit X perm k).2
        = (perm.take k).map (fun i => transformRow X (X.getD i [])) := by
      show selectRows (fitTransform X) (perm.take k) = _
      rw [selectRows_fitTransform]
      unfold selectRows
      rw [List.map_map]
      rfl
    show transformRow X (assemblePrediction s (lastRow (mainSplit X perm k).2)) = _
    rw [h2, lastRow_map hj]
  · intro p
    unfold movement
    by_cases hp : 0 < p
    · rw [if_pos hp]
      refine ⟨⟨fun _ => hp, fun _ => rfl⟩, ?_, ?_⟩
      · intro hud
        exact absurd hud (by decide)
      · intro hn
        exact absurd hp hn
    · rw [if_neg hp]
      refine ⟨⟨?_, fun h0 => absurd h0 hp⟩, fun _ => hp, fun _ => rfl⟩
      intro hdu
      exact absurd hdu (by decide)

/-- Witness for C4 on the concrete matrix `wTable` with the split that
sends row 0 to the test set. -/
theorem predictor_pipeline_instance :
    ((([0, 1] : List ℕ).take 1).getLast? = some 0) ∧
    predictorInput wTable (mainSplit wTable [0, 1] 1).2 0
      = transformRow wTable (assemblePrediction 0 (transformRow wTable (wTable.getD 0 []))) :=
  ⟨by decide, (predictor_pipeline_spec wTable [0, 1] 1 0 0 (by decide)).1⟩

/-- Counterexample to C4 as stated: on `wTable` the vector the code
scales is all zeros (scaled test-row indicators), while a vector built
from the most recent raw indicators and scaled once would be
`[0, 1, 1, 1, 1, 1, 1]`. -/
theorem predictor_raw_input_refuted :
    predictorInput wTable (mainSplit wTable [0, 1] 1).2 0
      ≠ predictorInputClaim wTable [1, 10, 20, 30, 40, 50, 60] 0 ∧
    predictorInput wTable (mainSplit wTable [0, 1] 1).2 0 = [0, 0, 0, 0, 0, 0, 0] ∧
    predictorInputClaim wTable [1, 10, 20, 30, 40, 50, 60] 0
      = [0, 1, 1, 1, 1, 1, 1] := by
  refine ⟨?_, ?_, ?_⟩ <;> with_unfolding_all decide

theorem foldl_min_le_init (l : List ℚ) : ∀ a : ℚ, l.foldl min a ≤ a := by
  induction l with
  | nil => intro a; exact le_refl a
  | cons b bs ih => intro a; exact le_trans (ih (min a b)) (min_le_left a b)

theorem foldl_min_le_mem (l : List ℚ) : ∀ (a x : ℚ), x ∈ l → l.foldl min a ≤ x := by
  induction l with
  | nil =>
    intro a x hx
    simp at hx
  | cons b bs ih =>
    intro a x hx
    rcases List.mem_cons.mp hx with rfl | hx
    · exact le_trans (foldl_min_le_init bs (min a x)) (min_le_right a x)
    · exact ih (min a b) x hx

theorem init_le_foldl_max (l : List ℚ) : ∀ a : ℚ, a ≤ l.foldl max a := by
  induction l with
  | nil => intro a; exact le_refl a
  | cons b bs ih => intro a; exact le_trans (le_max_left a b) (ih (max a b))

theorem mem_le_foldl_max (l : List ℚ) : ∀ (a x : ℚ), x ∈ l → x ≤ l.foldl max a := by
  induction l with
  | nil =>
    intro a x hx
    simp at hx
  | cons b bs ih =>
    intro a x hx
    rcases List.mem_cons.mp hx with rfl | hx
    · exact le_trans (le_max_right a x) (init_le_foldl_max bs (max a x))
    · exact ih (max a b) x hx

theorem listMin_le_mem {l : List ℚ} {x : ℚ} (h : x ∈ l) : listMin l ≤ x := by
  cases l with
  | nil => simp at h
  | cons a as =>
    rcases List.mem_cons.mp h with rfl | h
    · exact foldl_min_le_init as x
    · exact foldl_min_le_mem as a x h

theorem mem_le_listMax {l : List ℚ} {x : ℚ} (h : x ∈ l) : x ≤ listMax l := by
  cases l with
  | nil => simp at h
  | cons a as =>
    rcases List.mem_cons.mp h with rfl | h
    · exact init_le_foldl_max as x
    · exact mem_le_foldl_max as a x h

theorem colMin_le {X : Table} {r : FRow} (j : ℕ) (hr : r ∈ X) :
    colMin X j ≤ r.getD j 0 :=
  listMin_le_mem (List.mem_map.mpr ⟨r, hr, rfl⟩)

theorem le_colMax {X : Table} {r : FRow} (j : ℕ) (hr : r ∈ X) :
    r.getD j 0 ≤ colMax X j :=
  mem_le_listMax (List.mem_map.mpr ⟨r, hr, rfl⟩)

theorem transformRow_getD (X : Table) (r : FRow) (j : ℕ) (hj : j < r.length) :
    (transformRow X r).getD j 0
      = (r.getD j 0 - colMin X j) / rangeAdj (colMax X j - colMin X j) := by
  unfold transformRow
  rw [List.getD_eq_getElem?_getD, List.getElem?_map, List.getElem?_range hj]
  rfl

/-- C9 (amended): every entry of the min/max-scaled feature matrix lies
in `[0, 1]`; a row holding the observed column minimum scales to 0, and
a row holding the observed column maximum scales to 1 whenever the
column is not constant (a constant column is scaled to 0 everywhere by
the zero-range guard of sklearn). -/
theorem minmax_scaling_spec (X : Table) (r : FRow) (j : ℕ)
    (hr : r ∈ X) (hj : j < r.length) :
    (0 ≤ (transformRow X r).getD j 0 ∧ (transformRow X r).getD j 0 ≤ 1) ∧
    (r.getD j 0 = colMin X j → (transformRow X r).getD j 0 = 0) ∧
    (colMin X j < colMax X j → r.getD j 0 = colMax X j →
      (transformRow X r).getD j 0 = 1) := by
  have ht := transformRow_getD X r j hj
  have hmin := colMin_le j hr
  have hmax := le_colMax j hr
  rw [ht]
  unfold rangeAdj
  by_cases h0 : colMax X j - colMin X j = 0
  · have hmm : colMin X j = colMax X j := by linarith
    have hx : r.getD j 0 = colMin X j := le_antisymm (hmm ▸ hmax) hmin
    rw [if_pos h0, hx]
    refine ⟨⟨by simp, by norm_num⟩, fun _ => by simp, fun hlt _ => ?_⟩
    exact absurd hmm (ne_of_lt hlt)
  · have hlt : 0 < colMax X j - colMin X j := lt_of_le_of_ne (by linarith) (Ne.symm h0)
    rw [if_neg h0]
    refine ⟨⟨?_, ?_⟩, ?_, ?_⟩
    · exact div_nonneg (by linarith) (le_of_lt hlt)
    · rw [div_le_one hlt]
      linarith
    · intro hx
      rw [hx, sub_self, zero_div]
    · intro _ hx
      rw [hx]
      exact div_self h0

/-- Witness for C9 on the matrix `[[0], [2]]`: the row holding the
column maximum scales to exactly 1. -/
theorem minmax_scaling_instance :
    (([2] : FRow) ∈ ([[0], [2]] : Table)) ∧
    colMin [[0], [2]] 0 < colMax [[0], [2]] 0 ∧
    (transformRow [[0], [2]] [2]).getD 0 0 = 1 :=
  ⟨by with_unfolding_all decide, by with_unfolding_all decide,
   (minmax_scaling_spec [[0], [2]] [2] 0 (by with_unfolding_all decide)
       (by decide)).2.2
     (by with_unfolding_all decide) (by with_unfolding_all decide)⟩

/-- Counterexample to C9 as stated: in the one-row matrix `[[5]]` the
single row holds the observed column maximum, yet sklearn scales a
zero-range column by dividing by 1, so the entry becomes 0, not 1. -/
theorem minmax_max_row_refuted :
    (([5] : FRow) ∈ ([[5]] : Table)) ∧
    ([5] : FRow).getD 0 0 = colMax [[5]] 0 ∧
    (transformRow [[5]] [5]).getD 0 0 = 0 ∧ ((0 : ℚ) ≠ 1) := by
  refine ⟨?_, ?_, ?_, ?_⟩ <;> with_unfolding_all decide

/-- C10: the prediction vector of line 120 lists its seven components in
exactly the training-time column order of `prepare_features`, so the
i-th component always corresponds to the i-th training column. -/
theorem feature_order_spec :
    (∀ v : FeatureName → ℚ, predictionVector v = featureColumns.map v) ∧
    featureColumns.length = 7 :=
  ⟨fun _ => rfl, rfl⟩

end StockSentiment
